import Mathlib

/-!
Shallow embedding of the timestamp-injection policy and configuration
resolution of litehex/mongodb (src/collection.ts), together with proofs
of the specified properties.

JavaScript values are modelled by the inductive type `Value`; a document
(or update expression) is an association list of string keys to values,
with first-occurrence lookup and in-place first-occurrence update, which
matches the unique-key objects the code manipulates.  Absence of a key is
`Option.none`; JavaScript truthiness is the function `truthy`.  A native
`Date` is its integer millisecond epoch (`JSDate`).  The driver handles
(`client`, the live `Db` object) carry no data relevant to the verified
claims beyond the database name, so `DbRef.handle` keeps only that name
and the optional client is omitted from the embedded configuration.
-/

set_option autoImplicit false

namespace Mongo

/-- A JavaScript runtime value, as far as the collection code inspects
one: null, booleans, integers (timestamps), strings, Date objects and
plain objects (documents). -/
inductive Value where
  | vNull
  | vBool (b : Bool)
  | vInt (n : Int)
  | vStr (s : String)
  | vDate (ms : Int)
  | vDoc (fields : List (String × Value))

/-- A document or update expression: an object with string keys. -/
abbrev Document := List (String × Value)

/-- JavaScript truthiness of a value: null, false, 0 and the empty
string are falsy; Date objects and plain objects are always truthy. -/
def truthy : Value → Bool
  | Value.vNull => false
  | Value.vBool b => b
  | Value.vInt n => n != 0
  | Value.vStr s => s != ""
  | Value.vDate _ => true
  | Value.vDoc _ => true

/-- Truthiness of a possibly-absent value: an absent key reads as
undefined, which is falsy. -/
def truthyOpt : Option Value → Bool
  | none => false
  | some v => truthy v

/-- Truthiness of the optional boolean field of the configuration. -/
def truthyOptBool : Option Bool → Bool
  | none => false
  | some b => b

/-- Truthiness of an optional string (the field-name entries of
timestampsFields): defined and nonempty. -/
def strTruthy : Option String → Bool
  | none => false
  | some s => s != ""

/-- First-occurrence lookup, i.e. property read on an object. -/
def getKey (d : Document) (k : String) : Option Value :=
  match d with
  | [] => none
  | (k2, v) :: rest => if k2 = k then some v else getKey rest k

/-- Property assignment on an object: replace the value at the first
occurrence of the key, or append the binding when the key is absent. -/
def setKey (d : Document) (k : String) (v : Value) : Document :=
  match d with
  | [] => [(k, v)]
  | (k2, v2) :: rest => if k2 = k then (k2, v) :: rest else (k2, v2) :: setKey rest k v

/-- A native Date object, reduced to its millisecond epoch. -/
structure JSDate where
  ms : Int

/-- The timestampsFormat union type of the configuration. -/
inductive TsFormat where
  | ISODate
  | Millis
  | Unix
  | Date
  | Utc

/-- The timestampsFields record; in TypeScript both entries are optional
strings (LeastOne requires at least one at the type level, which the
runtime code does not rely on). -/
structure TimestampsFields where
  createdAt : Option String
  updatedAt : Option String

/-- The database reference of the configuration: a name string, a Db
handle (typeof string fails, instanceof Db succeeds; only its
databaseName is read), or a value that is neither. -/
inductive DbRef where
  | name (s : String)
  | handle (databaseName : String)
  | invalid
  deriving DecidableEq

/-- The CollectionConfig record (the optional client handle carries no
data used by the verified claims and is omitted). -/
structure CollectionConfig where
  name : String
  database : DbRef
  timestamps : Option Bool
  timestampsFormat : Option TsFormat
  timestampsFields : Option TimestampsFields

/-! Calendar arithmetic for the ECMAScript Date string conversions.
toISOString and toUTCString are builtins of the JavaScript runtime, not
code of this repository; they are embedded here following the
ECMAScript specification of those methods so that the format-selection
claims can be stated exactly. -/

/-- Whole days since the Unix epoch (floor division). -/
def epochDay (ms : Int) : Int := Int.fdiv ms 86400000

/-- Milliseconds elapsed within the UTC day (nonnegative). -/
def msOfDay (ms : Int) : Nat := (Int.fmod ms 86400000).toNat

/-- Proleptic Gregorian civil date (year, month, day) of a day count
relative to 1970-01-01, by the standard era-based conversion. -/
def civilFromDays (z0 : Int) : Int × Int × Int :=
  let z := z0 + 719468
  let era := Int.fdiv z 146097
  let doe := z - era * 146097
  let yoe := Int.fdiv (doe - Int.fdiv doe 1460 + Int.fdiv doe 36524 - Int.fdiv doe 146096) 365
  let y := yoe + era * 400
  let doy := doe - (365 * yoe + Int.fdiv yoe 4 - Int.fdiv yoe 100)
  let mp := Int.fdiv (5 * doy + 2) 153
  let d := doy - Int.fdiv (153 * mp + 2) 5 + 1
  let m := mp + (if mp < 10 then 3 else -9)
  (y + (if m ≤ 2 then 1 else 0), m, d)

/-- Decimal rendering of a natural number left-padded with zeros to the
given width. -/
def padNum (width : Nat) (n : Nat) : String :=
  let s := toString n
  String.mk (List.replicate (width - s.length) '0') ++ s

/-- Year field of toISOString: four digits in 0..9999, otherwise an
explicit sign and six digits (expanded years). -/
def isoYearString (y : Int) : String :=
  if 0 ≤ y ∧ y ≤ 9999 then padNum 4 y.toNat
  else if y < 0 then "-" ++ padNum 6 (-y).toNat
  else "+" ++ padNum 6 y.toNat

/-- Year field of toUTCString: at least four digits, sign when
negative. -/
def utcYearString (y : Int) : String :=
  (if y < 0 then "-" else "") ++ padNum 4 y.natAbs

/-- Three-letter English weekday name, 0 = Sunday. -/
def weekdayName (wd : Nat) : String :=
  match wd with
  | 0 => "Sun" | 1 => "Mon" | 2 => "Tue" | 3 => "Wed" | 4 => "Thu" | 5 => "Fri" | _ => "Sat"

/-- Three-letter English month name, 1 = January. -/
def monthName (m : Nat) : String :=
  match m with
  | 1 => "Jan" | 2 => "Feb" | 3 => "Mar" | 4 => "Apr" | 5 => "May" | 6 => "Jun"
  | 7 => "Jul" | 8 => "Aug" | 9 => "Sep" | 10 => "Oct" | 11 => "Nov" | _ => "Dec"

/-- Time-of-day portion HH:MM:SS of a millisecond count within a day. -/
def hmsString (t : Nat) : String :=
  padNum 2 (t / 3600000) ++ ":" ++ padNum 2 (t % 3600000 / 60000) ++ ":" ++ padNum 2 (t % 60000 / 1000)

/-- Date.prototype.toISOString: ISO-8601 with millisecond precision and
a Z suffix, for example 2022-12-05T04:14:52.618Z. -/
def toISOString (d : JSDate) : String :=
  let days := epochDay d.ms
  let t := msOfDay d.ms
  let c := civilFromDays days
  (isoYearString c.1 ++ "-" ++ padNum 2 c.2.1.toNat ++ "-" ++ padNum 2 c.2.2.toNat ++ "T" ++
    hmsString t ++ "." ++ padNum 3 (t % 1000)) ++ "Z"

/-- Date.prototype.toUTCString: the RFC-1123-style form, for example
Mon, 05 Dec 2022 04:14:52 GMT. -/
def toUTCString (d : JSDate) : String :=
  let days := epochDay d.ms
  let t := msOfDay d.ms
  let c := civilFromDays days
  let wd := (Int.fmod (days + 4) 7).toNat
  weekdayName wd ++ ", " ++ padNum 2 c.2.2.toNat ++ " " ++ monthName c.2.1.toNat ++ " " ++
    utcYearString c.1 ++ " " ++ hmsString t ++ " GMT"

/-- The _formatDate switch of MongoCollection: ISODate renders the ISO
string, Date returns the Date object itself, Unix floors the millisecond
epoch divided by 1000, Millis returns the millisecond epoch, Utc renders
the RFC-1123 string. -/
def formatDate (date : JSDate) (format : TsFormat) : Value :=
  match format with
  | TsFormat.ISODate => Value.vStr (toISOString date)
  | TsFormat.Date => Value.vDate date.ms
  | TsFormat.Unix => Value.vInt (Int.fdiv date.ms 1000)
  | TsFormat.Millis => Value.vInt date.ms
  | TsFormat.Utc => Value.vStr (toUTCString date)

/-- The fields record used by _updateTimestamps: config.timestampsFields
when present, otherwise the whole default record (the source applies the
default to the record as a whole with a logical-or, never entrywise). -/
def resolvedFields (cfg : CollectionConfig) : TimestampsFields :=
  cfg.timestampsFields.getD ⟨some "createdAt", some "updatedAt"⟩

/-- One guarded insert stamp of _updateTimestamps: assign the formatted
date at the key only when the current value there is falsy or absent. -/
def stampField (doc : Document) (k : String) (fd : Value) : Document :=
  if truthyOpt (getKey doc k) then doc else setKey doc k fd

/-- One conditional insert stamp guarded by the truthiness of a field
name entry: the source guard fields.createdAt (resp. updatedAt) passes
exactly when the entry is a defined nonempty string. -/
def stampEntry (e : Option String) (fd : Value) (doc : Document) : Document :=
  match e with
  | some k => if k = "" then doc else stampField doc k fd
  | none => doc

/-- The two insert-side conditionals of _updateTimestamps: stamp the
createdAt key, then the updatedAt key, each only when its entry in the
fields record is truthy and the document value there is falsy. -/
def stampInsert (fields : TimestampsFields) (fd : Value) (doc : Document) : Document :=
  stampEntry fields.updatedAt fd (stampEntry fields.createdAt fd doc)

/-- The update-side guard that creates an empty $set sub-record when the
current $set value is falsy or absent. -/
def ensureSet (doc : Document) : Document :=
  if truthyOpt (getKey doc "$set") then doc else setKey doc "$set" (Value.vDoc [])

/-- The update-side branch of _updateTimestamps: with a truthy updatedAt
entry, ensure $set exists, then assign the formatted date under $set only
when the value at the updatedAt key there is falsy or absent.  When the
existing $set value is truthy but not an object, the property write on a
primitive has no observable effect. -/
def setStamp (k : String) (fd : Value) (doc : Document) : Document :=
  match getKey (ensureSet doc) "$set" with
  | some (Value.vDoc s) =>
    if truthyOpt (getKey s k) then ensureSet doc
    else setKey (ensureSet doc) "$set" (Value.vDoc (setKey s k fd))
  | _ => ensureSet doc

/-- The update-side conditional of _updateTimestamps: it runs exactly
when the updatedAt entry of the fields record is truthy. -/
def stampUpdate (fields : TimestampsFields) (fd : Value) (doc : Document) : Document :=
  match fields.updatedAt with
  | some k => if k = "" then doc else setStamp k fd doc
  | none => doc

/-- MongoCollection._updateTimestamps.  The instant now is passed in
explicitly: the source computes new Date() once per call and formats it
once, so a single formatted value is used for every stamp of the call. -/
def updateTimestamps (cfg : CollectionConfig) (now : JSDate) (doc : Document)
    (isInsert : Bool) : Document :=
  if truthyOptBool cfg.timestamps then
    let format := cfg.timestampsFormat.getD TsFormat.Millis
    let formattedDate := formatDate now format
    let fields := resolvedFields cfg
    if isInsert then stampInsert fields formattedDate doc
    else stampUpdate fields formattedDate doc
  else doc

/-- The map of MongoCollection.insertMany specialised to the timestamp
stage: each document of the list gets its own _updateTimestamps call,
hence its own new Date(), modelled by a clock indexed by list
position. -/
def insertManyGo (cfg : CollectionConfig) (clock : Nat → JSDate) (i : Nat) :
    List Document → List Document
  | [] => []
  | d :: ds => updateTimestamps cfg (clock i) d true :: insertManyGo cfg clock (i + 1) ds

/-- The document list forwarded by insertMany to the underlying client. -/
def insertManyDocs (cfg : CollectionConfig) (clock : Nat → JSDate)
    (docs : List Document) : List Document :=
  insertManyGo cfg clock 0 docs

/-- The two error species of configuration resolution: the MongoError
thrown by _getConfig when getConfig is not implemented (the
ConfigurationError of the specification) and the Error thrown by
getDbName on an invalid database reference (the TypeMismatchError). -/
inductive MCError where
  | configurationError
  | typeMismatchError
  deriving DecidableEq

/-- MongoCollection._getConfig: the configuration provider is an
optional implementation of getConfig; when it is missing the call
throws, otherwise it returns the configuration. -/
def getConfigResult (impl : Option CollectionConfig) : Except MCError CollectionConfig :=
  match impl with
  | none => Except.error MCError.configurationError
  | some c => Except.ok c

/-- MongoCollection.getDbName: resolve the configuration, return the
database reference when it is a string, the databaseName of the handle
when it is a Db instance, and throw otherwise. -/
def getDbName (impl : Option CollectionConfig) : Except MCError String :=
  match getConfigResult impl with
  | Except.error e => Except.error e
  | Except.ok c =>
    match c.database with
    | DbRef.name s => Except.ok s
    | DbRef.handle n => Except.ok n
    | DbRef.invalid => Except.error MCError.typeMismatchError

/-! Basic lemmas about object reads and writes. -/

theorem getKey_setKey_self (d : Document) (k : String) (v : Value) :
    getKey (setKey d k v) k = some v := by
  induction d with
  | nil => simp [getKey, setKey]
  | cons p rest ih =>
    obtain ⟨k2, v2⟩ := p
    by_cases h : k2 = k
    · subst h; simp [getKey, setKey]
    · simp [getKey, setKey, h, ih]

theorem getKey_setKey_ne (d : Document) (k k2 : String) (v : Value) (h : k2 ≠ k) :
    getKey (setKey d k v) k2 = getKey d k2 := by
  induction d with
  | nil => simp [getKey, setKey, Ne.symm h]
  | cons p rest ih =>
    obtain ⟨k3, v3⟩ := p
    by_cases h3 : k3 = k
    · subst h3
      simp [getKey, setKey, Ne.symm h]
    · by_cases h2 : k3 = k2
      · subst h2; simp [getKey, setKey, h3]
      · simp [getKey, setKey, h3, h2, ih]

theorem setKey_getKey_eq (d : Document) (k : String) (v : Value)
    (h : getKey d k = some v) : setKey d k v = d := by
  induction d with
  | nil => simp [getKey] at h
  | cons p rest ih =>
    obtain ⟨k2, v2⟩ := p
    by_cases h2 : k2 = k
    · subst h2
      simp [getKey] at h
      simp [setKey, h]
    · simp [getKey, h2] at h
      simp [setKey, h2, ih h]

/-! Lemmas about the insert-side stamping. -/

theorem getKey_stampField_ne (d : Document) (k k2 : String) (fd : Value) (h : k2 ≠ k) :
    getKey (stampField d k fd) k2 = getKey d k2 := by
  unfold stampField
  split
  · rfl
  · exact getKey_setKey_ne d k k2 fd h

theorem stampField_post (d : Document) (k : String) (fd : Value) :
    truthyOpt (getKey (stampField d k fd) k) = true ∨ getKey (stampField d k fd) k = some fd := by
  unfold stampField
  split
  · next ht => exact Or.inl ht
  · exact Or.inr (getKey_setKey_self d k fd)

theorem stampField_noop (d : Document) (k : String) (fd : Value)
    (h : truthyOpt (getKey d k) = true ∨ getKey d k = some fd) :
    stampField d k fd = d := by
  unfold stampField
  split
  · rfl
  · next hf =>
    rcases h with h | h
    · exact absurd h hf
    · exact setKey_getKey_eq d k fd h

theorem stampField_preserve (d : Document) (k k2 : String) (fd : Value)
    (h : truthyOpt (getKey d k2) = true ∨ getKey d k2 = some fd) :
    truthyOpt (getKey (stampField d k fd) k2) = true
      ∨ getKey (stampField d k fd) k2 = some fd := by
  by_cases he : k2 = k
  · subst he; exact stampField_post d k2 fd
  · rw [getKey_stampField_ne d k k2 fd he]; exact h

theorem getKey_stampField_truthy (d : Document) (k k2 : String) (fd : Value)
    (h : truthyOpt (getKey d k2) = true) :
    getKey (stampField d k fd) k2 = getKey d k2 := by
  by_cases he : k2 = k
  · subst he
    unfold stampField
    rw [if_pos h]
  · exact getKey_stampField_ne d k k2 fd he

theorem getKey_stampEntry_ne (e : Option String) (d : Document) (k2 : String) (fd : Value)
    (h : e ≠ some k2) : getKey (stampEntry e fd d) k2 = getKey d k2 := by
  cases e with
  | none => rfl
  | some k =>
    by_cases hk : k = ""
    · simp [stampEntry, hk]
    · have hne : k2 ≠ k := fun he => h (by rw [he])
      simp only [stampEntry, if_neg hk]
      exact getKey_stampField_ne d k k2 fd hne

theorem getKey_stampEntry_truthy (e : Option String) (d : Document) (k2 : String) (fd : Value)
    (h : truthyOpt (getKey d k2) = true) :
    getKey (stampEntry e fd d) k2 = getKey d k2 := by
  cases e with
  | none => rfl
  | some k =>
    by_cases hk : k = ""
    · simp [stampEntry, hk]
    · simp only [stampEntry, if_neg hk]
      exact getKey_stampField_truthy d k k2 fd h

theorem stampEntry_post (fd : Value) (d : Document) (k : String) (hk : k ≠ "") :
    truthyOpt (getKey (stampEntry (some k) fd d) k) = true
      ∨ getKey (stampEntry (some k) fd d) k = some fd := by
  simp only [stampEntry, if_neg hk]
  exact stampField_post d k fd

theorem stampEntry_preserve (e : Option String) (fd : Value) (d : Document) (k2 : String)
    (h : truthyOpt (getKey d k2) = true ∨ getKey d k2 = some fd) :
    truthyOpt (getKey (stampEntry e fd d) k2) = true
      ∨ getKey (stampEntry e fd d) k2 = some fd := by
  cases e with
  | none => exact h
  | some k =>
    by_cases hk : k = ""
    · simpa [stampEntry, hk] using h
    · simp only [stampEntry, if_neg hk]
      exact stampField_preserve d k k2 fd h

theorem stampEntry_noop (e : Option String) (fd : Value) (d : Document)
    (h : ∀ k, e = some k → k ≠ "" → truthyOpt (getKey d k) = true ∨ getKey d k = some fd) :
    stampEntry e fd d = d := by
  cases e with
  | none => rfl
  | some k =>
    by_cases hk : k = ""
    · simp [stampEntry, hk]
    · simp only [stampEntry, if_neg hk]
      exact stampField_noop d k fd (h k rfl hk)

theorem stampInsert_idem (f : TimestampsFields) (fd : Value) (doc : Document) :
    stampInsert f fd (stampInsert f fd doc) = stampInsert f fd doc := by
  unfold stampInsert
  have hC : stampEntry f.createdAt fd
      (stampEntry f.updatedAt fd (stampEntry f.createdAt fd doc))
      = stampEntry f.updatedAt fd (stampEntry f.createdAt fd doc) := by
    apply stampEntry_noop
    intro k hk hke
    rw [hk]
    exact stampEntry_preserve f.updatedAt fd _ k (stampEntry_post fd doc k hke)
  rw [hC]
  apply stampEntry_noop
  intro k hk hke
  rw [hk]
  exact stampEntry_post fd _ k hke

/-! Lemmas about the update-side stamping. -/

theorem ensureSet_post (doc : Document) :
    truthyOpt (getKey (ensureSet doc) "$set") = true := by
  unfold ensureSet
  split
  · next ht => exact ht
  · rw [getKey_setKey_self]; rfl

theorem getKey_ensureSet_ne (doc : Document) (k : String) (h : k ≠ "$set") :
    getKey (ensureSet doc) k = getKey doc k := by
  unfold ensureSet
  split
  · rfl
  · exact getKey_setKey_ne doc "$set" k (Value.vDoc []) h

theorem ensureSet_of_truthy (doc : Document) (h : truthyOpt (getKey doc "$set") = true) :
    ensureSet doc = doc := by
  unfold ensureSet
  rw [if_pos h]

theorem setStamp_noop (k : String) (fd : Value) (d : Document)
    (hT : truthyOpt (getKey d "$set") = true)
    (h : ∀ s, getKey d "$set" = some (Value.vDoc s) →
      truthyOpt (getKey s k) = true ∨ getKey s k = some fd) :
    setStamp k fd d = d := by
  unfold setStamp
  rw [ensureSet_of_truthy d hT]
  split
  · next s hs =>
    rcases h s hs with ht | hfd
    · rw [if_pos ht]
    · by_cases htf : truthyOpt (getKey s k) = true
      · rw [if_pos htf]
      · rw [if_neg htf, setKey_getKey_eq s k fd hfd,
          setKey_getKey_eq d "$set" (Value.vDoc s) hs]
  · rfl

theorem setStamp_stable (k : String) (fd : Value) (doc : Document) :
    truthyOpt (getKey (setStamp k fd doc) "$set") = true
      ∧ ∀ s, getKey (setStamp k fd doc) "$set" = some (Value.vDoc s) →
        truthyOpt (getKey s k) = true ∨ getKey s k = some fd := by
  unfold setStamp
  split
  · next s hs =>
    by_cases ht : truthyOpt (getKey s k) = true
    · rw [if_pos ht]
      refine ⟨ensureSet_post doc, ?_⟩
      intro s2 hs2
      rw [hs] at hs2
      obtain rfl : s = s2 := by injection hs2 with h2; injection h2
      exact Or.inl ht
    · rw [if_neg ht]
      refine ⟨by rw [getKey_setKey_self]; rfl, ?_⟩
      intro s2 hs2
      rw [getKey_setKey_self] at hs2
      obtain rfl : setKey s k fd = s2 := by injection hs2 with h2; injection h2
      exact Or.inr (getKey_setKey_self s k fd)
  · next x hne =>
    refine ⟨ensureSet_post doc, ?_⟩
    intro s2 hs2
    exact absurd hs2 (hne s2)

theorem setStamp_idem (k : String) (fd : Value) (doc : Document) :
    setStamp k fd (setStamp k fd doc) = setStamp k fd doc := by
  obtain ⟨h1, h2⟩ := setStamp_stable k fd doc
  exact setStamp_noop k fd _ h1 h2

theorem stampUpdate_idem (f : TimestampsFields) (fd : Value) (doc : Document) :
    stampUpdate f fd (stampUpdate f fd doc) = stampUpdate f fd doc := by
  unfold stampUpdate
  cases f.updatedAt with
  | none => rfl
  | some k =>
    by_cases hk : k = ""
    · simp [hk]
    · simp only [if_neg hk]
      exact setStamp_idem k fd doc

theorem getKey_setStamp_ne (k : String) (fd : Value) (doc : Document) (k2 : String)
    (h : k2 ≠ "$set") : getKey (setStamp k fd doc) k2 = getKey doc k2 := by
  unfold setStamp
  split
  · next s hs =>
    by_cases ht : truthyOpt (getKey s k) = true
    · rw [if_pos ht]; exact getKey_ensureSet_ne doc k2 h
    · rw [if_neg ht, getKey_setKey_ne _ "$set" k2 _ h]
      exact getKey_ensureSet_ne doc k2 h
  · exact getKey_ensureSet_ne doc k2 h

/-! Reduction lemmas for _updateTimestamps itself. -/

/-- The single formatted instant of one _updateTimestamps call. -/
def formattedNow (cfg : CollectionConfig) (now : JSDate) : Value :=
  formatDate now (cfg.timestampsFormat.getD TsFormat.Millis)

theorem uts_off (cfg : CollectionConfig) (now : JSDate) (doc : Document) (b : Bool)
    (hf : truthyOptBool cfg.timestamps = false) :
    updateTimestamps cfg now doc b = doc := by
  unfold updateTimestamps
  rw [if_neg (by rw [hf]; exact Bool.false_ne_true)]

theorem uts_on_insert (cfg : CollectionConfig) (now : JSDate) (doc : Document)
    (ht : truthyOptBool cfg.timestamps = true) :
    updateTimestamps cfg now doc true
      = stampInsert (resolvedFields cfg) (formattedNow cfg now) doc := by
  unfold updateTimestamps
  rw [if_pos ht]
  rfl

theorem uts_on_update (cfg : CollectionConfig) (now : JSDate) (doc : Document)
    (ht : truthyOptBool cfg.timestamps = true) :
    updateTimestamps cfg now doc false
      = stampUpdate (resolvedFields cfg) (formattedNow cfg now) doc := by
  unfold updateTimestamps
  rw [if_pos ht]
  rfl

theorem stampField_absent (d : Document) (k : String) (fd : Value)
    (h : getKey d k = none) : stampField d k fd = setKey d k fd := by
  unfold stampField
  rw [h]
  rfl

theorem setStamp_absent (k : String) (fd : Value) (doc : Document)
    (h : getKey doc "$set" = none) :
    setStamp k fd doc
      = setKey (setKey doc "$set" (Value.vDoc [])) "$set" (Value.vDoc [(k, fd)]) := by
  have hd1 : ensureSet doc = setKey doc "$set" (Value.vDoc []) := by
    unfold ensureSet
    rw [h]
    rfl
  unfold setStamp
  rw [hd1, getKey_setKey_self]
  rfl

theorem stampUpdate_default (fd : Value) (doc : Document) :
    stampUpdate ⟨some "createdAt", some "updatedAt"⟩ fd doc = setStamp "updatedAt" fd doc := rfl

theorem getKey_stampInsert_truthy (f : TimestampsFields) (fd : Value) (d : Document)
    (k : String) (h : truthyOpt (getKey d k) = true) :
    getKey (stampInsert f fd d) k = getKey d k := by
  unfold stampInsert
  have h1 := getKey_stampEntry_truthy f.createdAt d k fd h
  rw [getKey_stampEntry_truthy f.updatedAt _ k fd (by rw [h1]; exact h), h1]

theorem getKey_stampInsert_ne (f : TimestampsFields) (fd : Value) (d : Document) (k : String)
    (hc : f.createdAt ≠ some k) (hu : f.updatedAt ≠ some k) :
    getKey (stampInsert f fd d) k = getKey d k := by
  unfold stampInsert
  rw [getKey_stampEntry_ne f.updatedAt _ k fd hu, getKey_stampEntry_ne f.createdAt d k fd hc]

theorem getKey_stampUpdate_ne (f : TimestampsFields) (fd : Value) (d : Document) (k : String)
    (h : k ≠ "$set") : getKey (stampUpdate f fd d) k = getKey d k := by
  unfold stampUpdate
  cases f.updatedAt with
  | none => rfl
  | some uk =>
    show getKey (if uk = "" then d else setStamp uk fd d) k = getKey d k
    by_cases hk : uk = ""
    · rw [if_pos hk]
    · rw [if_neg hk]
      exact getKey_setStamp_ne uk fd d k h

/-! Lemmas about the insertMany mapping. -/

theorem insertManyGo_length (cfg : CollectionConfig) (clock : Nat → JSDate)
    (docs : List Document) : ∀ j, (insertManyGo cfg clock j docs).length = docs.length := by
  induction docs with
  | nil => intro j; rfl
  | cons d ds ih =>
    intro j
    simp only [insertManyGo, List.length_cons, ih (j + 1)]

theorem insertManyGo_getElem (cfg : CollectionConfig) (clock : Nat → JSDate)
    (docs : List Document) :
    ∀ j i, (insertManyGo cfg clock j docs)[i]?
      = (docs[i]?).map (fun d => updateTimestamps cfg (clock (j + i)) d true) := by
  induction docs with
  | nil => intro j i; simp [insertManyGo]
  | cons d ds ih =>
    intro j i
    cases i with
    | zero => simp [insertManyGo]
    | succ n =>
      have harith : j + (n + 1) = (j + 1) + n := by omega
      simp only [insertManyGo, List.getElem?_cons_succ, harith, ih (j + 1) n]

/-! Concrete configurations used for counterexamples and witnesses. -/

/-- A configuration with timestamps enabled and every timestamp option
left to its default. -/
def cfgMillisDefault : CollectionConfig :=
  ⟨"users", DbRef.name "app", some true, none, none⟩

/-- A configuration supplying only the createdAt entry of
timestampsFields, as the LeastOne type of the source permits. -/
def cfgCreatedOnly : CollectionConfig :=
  ⟨"users", DbRef.name "app", some true, none, some ⟨some "createdAt", none⟩⟩

/-! Claims. -/

/-- C1, counterexample: a caller-supplied but falsy value is
overwritten.  With timestamps enabled and the default configuration, a
document carrying createdAt = 0 comes out of the insert-side policy
with createdAt replaced by the formatted instant: the claim that a
caller-supplied value for the resolved field name is always left
unchanged fails at this input. -/
theorem c1_supplied_falsy_overwritten :
    getKey (updateTimestamps cfgMillisDefault ⟨5⟩ [("createdAt", Value.vInt 0)] true)
        "createdAt" = some (Value.vInt 5)
    ∧ getKey (updateTimestamps cfgMillisDefault ⟨5⟩ [("createdAt", Value.vInt 0)] true)
        "createdAt" ≠ some (Value.vInt 0) := by
  have e : getKey (updateTimestamps cfgMillisDefault ⟨5⟩ [("createdAt", Value.vInt 0)] true)
      "createdAt" = some (Value.vInt 5) := rfl
  refine ⟨e, fun h => ?_⟩
  have h2 := e.symm.trans h
  injection h2 with h3
  injection h3 with h4
  exact absurd h4 (by decide)

/-- C1 (amended): if the caller already supplied a truthy value (in the
JavaScript sense: not absent, null, false, 0 or the empty string) for
the resolved created or updated timestamp field name — on the document
for inserts, under the $set sub-record for updates — applying the
timestamp policy leaves that value unchanged.  For inserts this holds
for every key whose current value is truthy; for updates, a truthy
value under $set at the resolved updated field name makes the whole
call a no-op. -/
theorem c1_truthy_values_never_overwritten (cfg : CollectionConfig) (now : JSDate)
    (doc : Document) :
    (∀ k, truthyOpt (getKey doc k) = true →
      getKey (updateTimestamps cfg now doc true) k = getKey doc k)
    ∧ (∀ s, getKey doc "$set" = some (Value.vDoc s) →
        (∀ uk, (resolvedFields cfg).updatedAt = some uk → truthyOpt (getKey s uk) = true) →
        updateTimestamps cfg now doc false = doc) := by
  constructor
  · intro k hk
    cases htb : truthyOptBool cfg.timestamps with
    | false => rw [uts_off cfg now doc true htb]
    | true =>
      rw [uts_on_insert cfg now doc htb]
      exact getKey_stampInsert_truthy _ _ doc k hk
  · intro s hset hin
    cases htb : truthyOptBool cfg.timestamps with
    | false => exact uts_off cfg now doc false htb
    | true =>
      rw [uts_on_update cfg now doc htb]
      unfold stampUpdate
      cases hu : (resolvedFields cfg).updatedAt with
      | none => rfl
      | some uk =>
        show (if uk = "" then doc else setStamp uk (formattedNow cfg now) doc) = doc
        by_cases hke : uk = ""
        · rw [if_pos hke]
        · rw [if_neg hke]
          apply setStamp_noop
          · rw [hset]; rfl
          · intro s2 hs2
            rw [hset] at hs2
            obtain rfl : s = s2 := by injection hs2 with h2; injection h2
            exact Or.inl (hin uk hu)

/-- C1 witness: a truthy createdAt survives an insert and a truthy
updatedAt under $set makes the update-side policy a no-op. -/
theorem c1_truthy_values_never_overwritten_witness :
    getKey (updateTimestamps cfgMillisDefault ⟨5⟩ [("createdAt", Value.vInt 7)] true)
        "createdAt" = some (Value.vInt 7)
    ∧ updateTimestamps cfgMillisDefault ⟨5⟩
        [("$set", Value.vDoc [("updatedAt", Value.vInt 42)])] false
        = [("$set", Value.vDoc [("updatedAt", Value.vInt 42)])] := by
  constructor
  · have h := (c1_truthy_values_never_overwritten cfgMillisDefault ⟨5⟩
      [("createdAt", Value.vInt 7)]).1 "createdAt" rfl
    rw [h]
    rfl
  · exact (c1_truthy_values_never_overwritten cfgMillisDefault ⟨5⟩
      [("$set", Value.vDoc [("updatedAt", Value.vInt 42)])]).2
      [("updatedAt", Value.vInt 42)] rfl
      (fun uk h => by
        have h2 : some "updatedAt" = some uk := h
        injection h2 with h3
        rw [← h3]
        rfl)

/-- C2, counterexample: with timestampsFields supplying only createdAt,
the updated entry is not defaulted: inserting the empty document stamps
createdAt but leaves updatedAt entirely absent, although timestamps are
enabled, so the per-entry defaulting the claim describes does not
happen. -/
theorem c2_partial_fields_skip_updated :
    getKey (updateTimestamps cfgCreatedOnly ⟨5⟩ [] true) "updatedAt" = none
    ∧ getKey (updateTimestamps cfgCreatedOnly ⟨5⟩ [] true) "createdAt"
        = some (Value.vInt 5) :=
  ⟨rfl, rfl⟩

/-- C2 (amended): the field names are resolved from
config.timestampsFields as a whole record: when it is absent both names
default to createdAt and updatedAt, but when it is supplied, a missing
entry is not defaulted — the corresponding field is simply not stamped
(an update stamps nothing at all when updatedAt is missing, and an
insert with updatedAt missing touches no key other than the one named
by the supplied createdAt entry). -/
theorem c2_fields_resolved_wholesale (cfg : CollectionConfig) (now : JSDate)
    (doc : Document) :
    (cfg.timestampsFields = none →
      resolvedFields cfg = ⟨some "createdAt", some "updatedAt"⟩)
    ∧ (∀ f, cfg.timestampsFields = some f → resolvedFields cfg = f)
    ∧ (∀ f, cfg.timestampsFields = some f → f.updatedAt = none →
        updateTimestamps cfg now doc false = doc)
    ∧ (∀ f k, cfg.timestampsFields = some f → f.updatedAt = none →
        f.createdAt ≠ some k →
        getKey (updateTimestamps cfg now doc true) k = getKey doc k) := by
  refine ⟨?_, ?_, ?_, ?_⟩
  · intro h
    unfold resolvedFields
    rw [h]
    rfl
  · intro f h
    unfold resolvedFields
    rw [h]
    rfl
  · intro f h hu
    cases htb : truthyOptBool cfg.timestamps with
    | false => exact uts_off cfg now doc false htb
    | true =>
      rw [uts_on_update cfg now doc htb]
      have hf : resolvedFields cfg = f := by unfold resolvedFields; rw [h]; rfl
      unfold stampUpdate
      rw [hf, hu]
  · intro f k h hu hc
    cases htb : truthyOptBool cfg.timestamps with
    | false => rw [uts_off cfg now doc true htb]
    | true =>
      rw [uts_on_insert cfg now doc htb]
      have hf : resolvedFields cfg = f := by unfold resolvedFields; rw [h]; rfl
      rw [hf]
      refine getKey_stampInsert_ne f _ doc k hc ?_
      rw [hu]
      intro hcon
      exact Option.noConfusion hcon

/-- C2 witness: the wholesale defaulting and the skip of a missing
entry, each at a concrete configuration. -/
theorem c2_fields_resolved_wholesale_witness :
    resolvedFields cfgMillisDefault = ⟨some "createdAt", some "updatedAt"⟩
    ∧ updateTimestamps cfgCreatedOnly ⟨5⟩ [("$set", Value.vDoc [])] false
        = [("$set", Value.vDoc [])]
    ∧ getKey (updateTimestamps cfgCreatedOnly ⟨5⟩ [] true) "updatedAt"
        = getKey ([] : Document) "updatedAt" :=
  ⟨(c2_fields_resolved_wholesale cfgMillisDefault ⟨5⟩ []).1 rfl,
    (c2_fields_resolved_wholesale cfgCreatedOnly ⟨5⟩ [("$set", Value.vDoc [])]).2.2.1
      ⟨some "createdAt", none⟩ rfl rfl,
    (c2_fields_resolved_wholesale cfgCreatedOnly ⟨5⟩ []).2.2.2
      ⟨some "createdAt", none⟩ "updatedAt" rfl rfl
      (by intro hcon; injection hcon with h2; exact absurd h2 (by decide))⟩

/-- C3: inserting a document that lacks both default timestamp fields,
with timestamps enabled and the format and fields left to their
defaults, sets createdAt and updatedAt to the same integer millisecond
epoch of the single instant of the call. -/
theorem c3_insert_stamps_both_with_single_now (cfg : CollectionConfig) (now : JSDate)
    (doc : Document) (ht : truthyOptBool cfg.timestamps = true)
    (hfm : cfg.timestampsFormat = none) (hff : cfg.timestampsFields = none)
    (hc : getKey doc "createdAt" = none) (hu : getKey doc "updatedAt" = none) :
    getKey (updateTimestamps cfg now doc true) "createdAt" = some (Value.vInt now.ms)
    ∧ getKey (updateTimestamps cfg now doc true) "updatedAt" = some (Value.vInt now.ms) := by
  have hfd : formattedNow cfg now = Value.vInt now.ms := by
    unfold formattedNow
    rw [hfm]
    rfl
  have hfields : resolvedFields cfg = ⟨some "createdAt", some "updatedAt"⟩ := by
    unfold resolvedFields
    rw [hff]
    rfl
  rw [uts_on_insert cfg now doc ht, hfields, hfd]
  have e1 : stampEntry (some "createdAt") (Value.vInt now.ms) doc
      = setKey doc "createdAt" (Value.vInt now.ms) := by
    show stampField doc "createdAt" (Value.vInt now.ms) = _
    exact stampField_absent doc "createdAt" _ hc
  have e2 : stampEntry (some "updatedAt") (Value.vInt now.ms)
      (setKey doc "createdAt" (Value.vInt now.ms))
      = setKey (setKey doc "createdAt" (Value.vInt now.ms)) "updatedAt"
          (Value.vInt now.ms) := by
    show stampField _ "updatedAt" _ = _
    refine stampField_absent _ "updatedAt" _ ?_
    rw [getKey_setKey_ne doc "createdAt" "updatedAt" _ (by decide), hu]
  show getKey (stampEntry (some "updatedAt") (Value.vInt now.ms)
      (stampEntry (some "createdAt") (Value.vInt now.ms) doc)) "createdAt"
      = some (Value.vInt now.ms)
    ∧ getKey (stampEntry (some "updatedAt") (Value.vInt now.ms)
      (stampEntry (some "createdAt") (Value.vInt now.ms) doc)) "updatedAt"
      = some (Value.vInt now.ms)
  rw [e1, e2]
  constructor
  · rw [getKey_setKey_ne _ "updatedAt" "createdAt" _ (by decide)]
    exact getKey_setKey_self doc "createdAt" _
  · exact getKey_setKey_self _ "updatedAt" _

/-- C3 witness: the default insert at a concrete instant. -/
theorem c3_insert_stamps_both_with_single_now_witness :
    getKey (updateTimestamps cfgMillisDefault ⟨1670213692618⟩ [] true) "createdAt"
        = some (Value.vInt 1670213692618)
    ∧ getKey (updateTimestamps cfgMillisDefault ⟨1670213692618⟩ [] true) "updatedAt"
        = some (Value.vInt 1670213692618) :=
  c3_insert_stamps_both_with_single_now cfgMillisDefault ⟨1670213692618⟩ []
    rfl rfl rfl rfl rfl

/-- C4: with timestamps enabled and default fields, an update expression
without a truthy $set gets one created before the updated field is
injected: any expression lacking $set ends with $set holding exactly the
updatedAt binding, and the empty expression maps to precisely that one
record. -/
theorem c4_update_creates_set (cfg : CollectionConfig) (now : JSDate) (doc : Document)
    (ht : truthyOptBool cfg.timestamps = true) (hff : cfg.timestampsFields = none) :
    (getKey doc "$set" = none →
      getKey (updateTimestamps cfg now doc false) "$set"
        = some (Value.vDoc [("updatedAt", formattedNow cfg now)]))
    ∧ updateTimestamps cfg now [] false
        = [("$set", Value.vDoc [("updatedAt", formattedNow cfg now)])] := by
  have hfields : resolvedFields cfg = ⟨some "createdAt", some "updatedAt"⟩ := by
    unfold resolvedFields
    rw [hff]
    rfl
  constructor
  · intro hset
    rw [uts_on_update cfg now doc ht, hfields, stampUpdate_default,
      setStamp_absent "updatedAt" _ doc hset, getKey_setKey_self]
  · rw [uts_on_update cfg now [] ht, hfields, stampUpdate_default,
      setStamp_absent "updatedAt" _ [] rfl]
    rfl

/-- C4 witness: the empty update and an update without $set, at a
concrete instant. -/
theorem c4_update_creates_set_witness :
    getKey (updateTimestamps cfgMillisDefault ⟨5⟩ [("a", Value.vInt 1)] false) "$set"
        = some (Value.vDoc [("updatedAt", Value.vInt 5)])
    ∧ updateTimestamps cfgMillisDefault ⟨5⟩ [] false
        = [("$set", Value.vDoc [("updatedAt", Value.vInt 5)])] :=
  ⟨(c4_update_creates_set cfgMillisDefault ⟨5⟩ [("a", Value.vInt 1)] rfl rfl).1 rfl,
    (c4_update_creates_set cfgMillisDefault ⟨5⟩ [] rfl rfl).2⟩

/-- C5: whenever config.timestamps is falsy (absent or false), the
policy returns the input document or update expression unchanged, for
both the insert and the update variant. -/
theorem c5_disabled_returns_input (cfg : CollectionConfig) (now : JSDate) (doc : Document)
    (b : Bool) (hf : truthyOptBool cfg.timestamps = false) :
    updateTimestamps cfg now doc b = doc :=
  uts_off cfg now doc b hf

/-- C5 witness: a disabled configuration leaves a document untouched. -/
theorem c5_disabled_returns_input_witness :
    updateTimestamps ⟨"users", DbRef.name "app", some false, none, none⟩ ⟨5⟩
        [("a", Value.vInt 1)] true = [("a", Value.vInt 1)] :=
  c5_disabled_returns_input ⟨"users", DbRef.name "app", some false, none, none⟩ ⟨5⟩
    [("a", Value.vInt 1)] true rfl

/-- C6: applying the timestamp policy twice with the same instant equals
applying it once, for every configuration, document and variant: the
second application finds every field it would stamp either truthy or
already equal to the formatted instant and changes nothing. -/
theorem c6_apply_twice_eq_once (cfg : CollectionConfig) (now : JSDate) (doc : Document)
    (b : Bool) :
    updateTimestamps cfg now (updateTimestamps cfg now doc b) b
      = updateTimestamps cfg now doc b := by
  cases htb : truthyOptBool cfg.timestamps with
  | false => rw [uts_off cfg now doc b htb, uts_off cfg now _ b htb]
  | true =>
    cases b with
    | true =>
      rw [uts_on_insert cfg now doc htb, uts_on_insert cfg now _ htb]
      exact stampInsert_idem _ _ doc
    | false =>
      rw [uts_on_update cfg now doc htb, uts_on_update cfg now _ htb]
      exact stampUpdate_idem _ _ doc

/-- C7: format selection of _formatDate.  Millis yields the integer
millisecond epoch, Unix its floor division by 1000, Date the native
date value itself, ISODate the ISO-8601 millisecond-precision string
with a Z suffix, and Utc the RFC-1123 string; the concrete instant
1670213692618 ms anchors both string renderings. -/
theorem c7_format_selection :
    (∀ d : JSDate,
      formatDate d TsFormat.Millis = Value.vInt d.ms
      ∧ formatDate d TsFormat.Unix = Value.vInt (Int.fdiv d.ms 1000)
      ∧ formatDate d TsFormat.Date = Value.vDate d.ms
      ∧ formatDate d TsFormat.ISODate = Value.vStr (toISOString d)
      ∧ formatDate d TsFormat.Utc = Value.vStr (toUTCString d)
      ∧ ∃ p, toISOString d = p ++ "Z")
    ∧ toISOString ⟨1670213692618⟩ = "2022-12-05T04:14:52.618Z"
    ∧ toUTCString ⟨1670213692618⟩ = "Mon, 05 Dec 2022 04:14:52 GMT" :=
  ⟨fun _ => ⟨rfl, rfl, rfl, rfl, rfl, ⟨_, rfl⟩⟩, rfl, rfl⟩

/-- C8: insertMany applies the insert-side policy independently to each
element of the document list before forwarding: the forwarded list has
the same length and its i-th element is exactly the policy applied to
the i-th input document with the instant of that elementwise call. -/
theorem c8_insertMany_pointwise (cfg : CollectionConfig) (clock : Nat → JSDate)
    (docs : List Document) :
    (insertManyDocs cfg clock docs).length = docs.length
    ∧ ∀ i : Nat, (insertManyDocs cfg clock docs)[i]?
        = (docs[i]?).map (fun d => updateTimestamps cfg (clock i) d true) := by
  constructor
  · exact insertManyGo_length cfg clock docs 0
  · intro i
    have h := insertManyGo_getElem cfg clock docs 0 i
    simpa using h

/-- C9: configuration resolution fails with the ConfigurationError
exactly when no getConfig implementation exists, and getDbName fails
with the TypeMismatchError exactly when the configured database
reference is neither a name string nor a Db handle; with a provider and
a valid reference, resolution of the database name succeeds. -/
theorem c9_resolution_errors (impl : Option CollectionConfig) :
    (getConfigResult impl = Except.error MCError.configurationError ↔ impl = none)
    ∧ (getDbName impl = Except.error MCError.typeMismatchError
        ↔ ∃ c, impl = some c ∧ c.database = DbRef.invalid)
    ∧ (∀ c, impl = some c → c.database ≠ DbRef.invalid →
        ∃ s, getDbName impl = Except.ok s) := by
  refine ⟨?_, ?_, ?_⟩
  · cases impl with
    | none => simp [getConfigResult]
    | some c => simp [getConfigResult]
  · cases impl with
    | none => simp [getDbName, getConfigResult]
    | some c =>
      cases hdb : c.database with
      | name s => simp [getDbName, getConfigResult, hdb]
      | handle n => simp [getDbName, getConfigResult, hdb]
      | invalid => simp [getDbName, getConfigResult, hdb]
  · intro c hc hne
    subst hc
    cases hdb : c.database with
    | name s => exact ⟨s, by simp [getDbName, getConfigResult, hdb]⟩
    | handle n => exact ⟨n, by simp [getDbName, getConfigResult, hdb]⟩
    | invalid => exact absurd hdb hne

/-- C9 witness: a provider with a string database reference resolves. -/
theorem c9_resolution_errors_witness :
    ∃ s, getDbName (some ⟨"users", DbRef.name "app", none, none, none⟩) = Except.ok s :=
  (c9_resolution_errors (some ⟨"users", DbRef.name "app", none, none, none⟩)).2.2
    ⟨"users", DbRef.name "app", none, none, none⟩ rfl (by decide)

/-- C10: the policy never changes any field other than the resolved
timestamp fields.  On insert, every key different from both resolved
names keeps its value; on update, every top-level key other than $set
keeps its value, and when $set is an object, every key under it other
than the resolved updated name keeps its value. -/
theorem c10_frame (cfg : CollectionConfig) (now : JSDate) (doc : Document) :
    (∀ k, (resolvedFields cfg).createdAt ≠ some k →
      (resolvedFields cfg).updatedAt ≠ some k →
      getKey (updateTimestamps cfg now doc true) k = getKey doc k)
    ∧ (∀ k, k ≠ "$set" → getKey (updateTimestamps cfg now doc false) k = getKey doc k)
    ∧ (∀ s k, getKey doc "$set" = some (Value.vDoc s) →
        (resolvedFields cfg).updatedAt ≠ some k →
        ∃ s2, getKey (updateTimestamps cfg now doc false) "$set" = some (Value.vDoc s2)
          ∧ getKey s2 k = getKey s k) := by
  refine ⟨?_, ?_, ?_⟩
  · intro k hc hu
    cases htb : truthyOptBool cfg.timestamps with
    | false => rw [uts_off cfg now doc true htb]
    | true =>
      rw [uts_on_insert cfg now doc htb]
      exact getKey_stampInsert_ne _ _ doc k hc hu
  · intro k hk
    cases htb : truthyOptBool cfg.timestamps with
    | false => rw [uts_off cfg now doc false htb]
    | true =>
      rw [uts_on_update cfg now doc htb]
      exact getKey_stampUpdate_ne _ _ doc k hk
  · intro s k hset hu
    cases htb : truthyOptBool cfg.timestamps with
    | false =>
      refine ⟨s, ?_, rfl⟩
      rw [uts_off cfg now doc false htb, hset]
    | true =>
      rw [uts_on_update cfg now doc htb]
      unfold stampUpdate
      cases hup : (resolvedFields cfg).updatedAt with
      | none => exact ⟨s, hset, rfl⟩
      | some uk =>
        have hne : k ≠ uk := fun he => hu (by rw [hup, he])
        show ∃ s2, getKey (if uk = "" then doc else setStamp uk (formattedNow cfg now) doc)
            "$set" = some (Value.vDoc s2) ∧ getKey s2 k = getKey s k
        by_cases hke : uk = ""
        · rw [if_pos hke]
          exact ⟨s, hset, rfl⟩
        · rw [if_neg hke]
          have hT : truthyOpt (getKey doc "$set") = true := by rw [hset]; rfl
          unfold setStamp
          rw [ensureSet_of_truthy doc hT, hset]
          show ∃ s2, getKey (if truthyOpt (getKey s uk) = true then doc
              else setKey doc "$set" (Value.vDoc (setKey s uk (formattedNow cfg now))))
              "$set" = some (Value.vDoc s2) ∧ getKey s2 k = getKey s k
          by_cases htf : truthyOpt (getKey s uk) = true
          · rw [if_pos htf]
            exact ⟨s, hset, rfl⟩
          · rw [if_neg htf]
            exact ⟨setKey s uk (formattedNow cfg now), getKey_setKey_self doc "$set" _,
              getKey_setKey_ne s uk k _ hne⟩

/-- C10 witness: the frame property at a concrete document carrying an
unrelated top-level key and an unrelated key under $set. -/
theorem c10_frame_witness :
    getKey (updateTimestamps cfgMillisDefault ⟨5⟩
        [("x", Value.vInt 9), ("$set", Value.vDoc [("y", Value.vInt 3)])] true) "x"
      = some (Value.vInt 9)
    ∧ getKey (updateTimestamps cfgMillisDefault ⟨5⟩
        [("x", Value.vInt 9), ("$set", Value.vDoc [("y", Value.vInt 3)])] false) "x"
      = some (Value.vInt 9)
    ∧ ∃ s2, getKey (updateTimestamps cfgMillisDefault ⟨5⟩
        [("x", Value.vInt 9), ("$set", Value.vDoc [("y", Value.vInt 3)])] false) "$set"
        = some (Value.vDoc s2) ∧ getKey s2 "y" = some (Value.vInt 3) := by
  have h := c10_frame cfgMillisDefault ⟨5⟩
    [("x", Value.vInt 9), ("$set", Value.vDoc [("y", Value.vInt 3)])]
  refine ⟨?_, ?_, ?_⟩
  · rw [h.1 "x" (by decide) (by decide)]
    rfl
  · rw [h.2.1 "x" (by decide)]
    rfl
  · obtain ⟨s2, hs2, hk⟩ := h.2.2 [("y", Value.vInt 3)] "y" rfl (by decide)
    refine ⟨s2, hs2, ?_⟩
    rw [hk]
    rfl

end Mongo
